import Mathlib

/-!
Verification of the multiplexed-WebSocket relay layer (`internal/relay/mwss.go`).

The Go source is embedded shallowly:

* `SessionData` / `PoolState` model a `muxSession` and the `mwssTransporter`
  pool (`sessions map[string][]*muxSession`) restricted to one destination
  address; sessions are identified by numeric ids into a store so that the
  shared-pointer mutation of Go (`GetConn` bumping the stream count,
  `Close` marking a session closed) is explicit state passing.
* `scanLoop` is the `for sessionIndex, session = range sessions` loop of
  `mwssTransporter.Dial`, `dial` the whole method; dial-time I/O outcomes
  (`initSession`, `GetConn`) are inputs in `DialEnv`.
* `muxLoop` / `offer` model `MWSSServer.mux` with its non-blocking
  `select` send on `connChan`; `acceptLoop` models the outer accept loop of
  `Relay.RunLocalMWSSServer` with its exponential backoff.
* `handleTcpOverMWSS` / `handleMWSSConnToTcp` are traced with explicit Go
  `defer` semantics to reason about connection cleanup.
-/

namespace MWSS

/-- A `muxSession`'s observable state. `numStreams`, `maxStreamCnt`,
`IsClosed` correspond to the fields/methods used by `Dial`.
Modelled from the spec: the `muxSession` type itself is declared outside
the given source file; §4.2 specifies `NumStreams` as the count of live
logical streams, `IsClosed` as true once the multiplexer is torn down, and
`GetStream`/`Close` semantics. -/
structure SessionData where
  numStreams : Nat
  maxStreamCnt : Nat
  closed : Bool
deriving DecidableEq

abbrev SessionId := Nat

abbrev Store := List (SessionId × SessionData)

/-- Dereference a session id in the store (defaults are never hit on
reachable states: every id in the pool entry was put in the store). -/
def getSession (store : Store) (sid : SessionId) : SessionData :=
  match store.find? (fun p => p.1 == sid) with
  | some p => p.2
  | none => ⟨0, 0, true⟩

/-- Update the session object `sid` points to (Go pointer mutation). -/
def updateStore (store : Store) (sid : SessionId) (f : SessionData → SessionData) : Store :=
  store.map (fun p => if p.1 = sid then (p.1, f p.2) else p)

/-- The `mwssTransporter` state, restricted to a single destination
address: `entry` is `tr.sessions[addr]` (`none` when the key is absent),
`store` the heap of all session objects created so far, `nextId` the next
fresh id. -/
structure PoolState where
  nextId : SessionId
  store : Store
  entry : Option (List SessionId)
deriving DecidableEq

/-- The pool as built by `NewMWSSTransporter`: an empty map. -/
def initPool : PoolState := ⟨0, [], none⟩

/-- Does the session admit one more stream? `Dial`'s scan skips a session
iff `session.NumStreams() >= session.maxStreamCnt`. -/
def fits (store : Store) (sid : SessionId) : Bool :=
  (getSession store sid).numStreams < (getSession store sid).maxStreamCnt

/-- The scan loop of `Dial` (`for sessionIndex, session = range sessions`):
`i` is the index of the head of the remaining list, `last` the current
values of the Go loop variables `(sessionIndex, session)` (`none` while
still `nil`), the trailing `Bool` the Go variable `ok`. Returns the loop
variables and `ok` at loop exit: on the first fitting session it breaks
with `ok = true`; a full session sets `ok = false` and continues. -/
def scanLoop (store : Store) : List SessionId → Nat → Option (Nat × SessionId) → Bool →
    Option (Nat × SessionId) × Bool
  | [], _, last, ok => (last, ok)
  | sid :: rest, i, _, _ =>
    if (getSession store sid).numStreams ≥ (getSession store sid).maxStreamCnt then
      scanLoop store rest (i + 1) (some (i, sid)) false
    else
      (some (i, sid), true)

/-- `sessions = append(sessions[:i], sessions[i+1:]...)`: the resulting
local slice value (one element shorter). -/
def removeAt (l : List α) (i : Nat) : List α :=
  l.take i ++ l.drop (i + 1)

/-- What the *stored* mapping `tr.sessions[addr]` observes after that
in-place delete: the append reuses the backing array shared with the
stored slice header, moving elements `i+1 .. n-1` down one slot, while
the stored header keeps length `n`. The stored view therefore loses
element `i` and its final slot repeats the old last element; for
`i = n-1` nothing moves and the view is unchanged. -/
def evictedStoredView (l : List SessionId) (i : Nat) : List SessionId :=
  removeAt l i ++ l.drop (l.length - 1)

/-- Dial-time environment: whether `initSession` (WebSocket dial and
`smux.Client`) succeeds, and whether `session.GetConn()` succeeds. -/
structure DialEnv where
  initOk : Bool
  getConnOk : Bool
deriving DecidableEq

/-- What `Dial` returns: a stream on session `sid`, an error, or the nil
pointer dereference that the source would hit if the stored entry were an
empty (non-`nil`) slice. -/
inductive DialOut
  | conn (sid : SessionId)
  | err
  | nilPanic
deriving DecidableEq

/-- `GetStream` on session `sid` succeeded: the stream count rises by one.
Modelled from the spec: §4.2 `NumStreams` counts live logical streams, so a
granted stream raises it. -/
def bumpStreams (store : Store) (sid : SessionId) : Store :=
  updateStore store sid (fun d => { d with numStreams := d.numStreams + 1 })

/-- `session.Close()`. Modelled from the spec: §4.2 `Close` tears down the
multiplexer, after which `IsClosed` is true. -/
def closeSession (store : Store) (sid : SessionId) : Store :=
  updateStore store sid (fun d => { d with closed := true })

/-- Tail of `Dial` after the scan and the closed-session check:
`sessions` is the local (possibly already evicted) slice value, `sel` the
Go variable `session`, `ok` the Go variable `ok`. Covers session creation
(`initSession` + `append`), `GetConn`, the error returns, and the final
`tr.sessions[addr] = sessions` which reassigns the stored header only on
the success path. Because the local slice aliases the backing array of
the stored header, an error return still exposes in-place mutations:
`storedView` is what the stored mapping observes at that point (equal to
`st.entry` when no eviction happened, and to the `evictedStoredView`
after one), and `evicted` records whether an eviction shortened the local
slice — in that case the creation `append` writes the fresh session into
the freed final slot of the stored view, which is therefore visible even
when `GetConn` then fails. Without an eviction the creation `append`
lands at index `n`, beyond the stored header's length, and is invisible
on the error paths. -/
def dialCore (cfg : Nat) (env : DialEnv) (st : PoolState)
    (sessions : List SessionId) (storedView : Option (List SessionId)) (evicted : Bool)
    (sel : Option SessionId) (ok : Bool) :
    DialOut × PoolState :=
  if ok then
    match sel with
    | none => (.nilPanic, st)
    | some sid =>
      if env.getConnOk then
        (.conn sid, { st with store := bumpStreams st.store sid, entry := some sessions })
      else
        (.err, { st with store := closeSession st.store sid, entry := storedView })
  else
    if env.initOk then
      if env.getConnOk then
        (.conn st.nextId,
          { nextId := st.nextId + 1,
            store := bumpStreams (st.store ++ [(st.nextId, ⟨0, cfg, false⟩)]) st.nextId,
            entry := some (sessions ++ [st.nextId]) })
      else
        (.err,
          { nextId := st.nextId + 1,
            store := closeSession (st.store ++ [(st.nextId, ⟨0, cfg, false⟩)]) st.nextId,
            entry := if evicted then some (sessions ++ [st.nextId]) else storedView })
    else
      (.err, { st with entry := storedView })

/-- `mwssTransporter.Dial` for one destination. `cfg` is the configured
`MaxMWSSStreamCnt` given to new sessions. The lock acquire/release are
modelled separately by `dialTrace`; here the whole call is one atomic
transition, which is faithful because the source holds the pool mutex for
the entire body. The eviction branch passes the `evictedStoredView` and
the `evicted` flag to `dialCore` so that the in-place slice mutations of
the shared backing array are reflected in the stored mapping on the error
returns as well. -/
def dial (cfg : Nat) (env : DialEnv) (st : PoolState) : DialOut × PoolState :=
  let sessions := st.entry.getD []
  let ok0 := st.entry.isSome
  match scanLoop st.store sessions 0 none ok0 with
  | (none, ok1) =>
    dialCore cfg env st sessions st.entry false none ok1
  | (some (i, sid), ok1) =>
    if (getSession st.store sid).closed then
      dialCore cfg env st (removeAt sessions i)
        (some (evictedStoredView sessions i)) true (some sid) false
    else
      dialCore cfg env st sessions st.entry false (some sid) ok1

/-- The ids currently recorded in the pool mapping for the destination. -/
def entryIds (st : PoolState) : List SessionId :=
  st.entry.getD []

/-- The scan as run at the start of a `Dial` on state `st`. -/
def scanOf (st : PoolState) : Option (Nat × SessionId) × Bool :=
  scanLoop st.store (st.entry.getD []) 0 none st.entry.isSome

/-- The session the closed-session check of `Dial` would observe closed on
state `st`: the scan's terminal `session` when `IsClosed()` holds. -/
def dialObservesClosed (st : PoolState) : Option SessionId :=
  match scanOf st with
  | (some (_, sid), _) => if (getSession st.store sid).closed then some sid else none
  | (none, _) => none

/-- The observable state of one `MWSSServer.mux` invocation, together with
the shared `connChan`: `queue` holds the queued stream ids, `queueCap` the
channel capacity, `dropped` the streams that were closed by the `default`
branch of the non-blocking send, `muxClosed` whether the deferred
`mux.Close()` has run. -/
structure MuxState where
  failedCount : Nat
  queue : List Nat
  queueCap : Nat
  dropped : List Nat
  muxClosed : Bool
deriving DecidableEq

def initMuxState (cap : Nat) : MuxState :=
  ⟨0, [], cap, [], false⟩

/-- The non-blocking offer (`select { case s.connChan <- cc: default:
cc.Close() ... }`): enqueue when the channel has room, otherwise close the
stream and record the drop. Total — it never waits on a consumer. -/
def offer (st : MuxState) (streamId : Nat) : MuxState :=
  if st.queue.length < st.queueCap then
    { st with queue := st.queue ++ [streamId] }
  else
    { st with dropped := st.dropped ++ [streamId] }

/-- One `mux.AcceptStream()` outcome. -/
inductive AcceptStreamResult
  | ok (streamId : Nat)
  | fail
deriving DecidableEq

/-- The `for failedCount < 5` loop of `MWSSServer.mux`, run against a
finite schedule of `AcceptStream` outcomes. The returned `Bool` is true
iff the loop exited (by `break` or by its guard) rather than running out
of scheduled events (in Go it would block in `AcceptStream`). Note the
source `break`s immediately after `failedCount++`. -/
def muxLoop : List AcceptStreamResult → MuxState → MuxState × Bool
  | [], st => if st.failedCount < 5 then (st, false) else (st, true)
  | e :: rest, st =>
    if st.failedCount < 5 then
      match e with
      | .fail => ({ st with failedCount := st.failedCount + 1 }, true)
      | .ok sid => muxLoop rest (offer st sid)
    else
      (st, true)

/-- `MWSSServer.mux` after a successful `smux.Server` handshake: run the
accept loop; the deferred `mux.Close()` fires when the function returns,
i.e. exactly when the loop exited. -/
def muxRun (evs : List AcceptStreamResult) (cap : Nat) : MuxState × Bool :=
  match muxLoop evs (initMuxState cap) with
  | (st, true) => ({ st with muxClosed := true }, true)
  | (st, false) => (st, false)

/-- The channel capacities fixed by `RunLocalMWSSServer` when it builds the
`MWSSServer` (`connChan: make(chan net.Conn, 1024)`, `errChan:
make(chan error, 1)`). -/
structure MWSSServerState where
  connChanCap : Nat
  errChanCap : Nat
deriving DecidableEq

def newMWSSServer : MWSSServerState :=
  { connChanCap := 1024, errChanCap := 1 }

/-! ### The outer accept loop of `RunLocalMWSSServer` -/

/-- One iteration's input to the outer accept loop: a successful
`s.Accept()`, a temporary `net.Error`, or a non-temporary error (carrying
an error id so the returned error can be identified). -/
inductive AcceptEvent
  | conn
  | tempErr
  | fatalErr (e : Nat)
deriving DecidableEq

/-- `tempDelay` update on a temporary error: start at 5ms, double, cap at
1s (recorded in milliseconds). -/
def backoffStep (d : Nat) : Nat :=
  let d1 := if d = 0 then 5 else d * 2
  if d1 > 1000 then 1000 else d1

/-- What a run of the outer accept loop did: the sleeps performed in
order (ms), how many connections were handed to `handleMWSSConnToTcp`,
the returned error id if the loop terminated, and the final `tempDelay`. -/
structure AcceptTrace where
  delays : List Nat
  handled : Nat
  result : Option Nat
  finalDelay : Nat
deriving DecidableEq

/-- The `for { conn, e := s.Accept() ... }` loop of `RunLocalMWSSServer`,
run against a finite schedule of accept outcomes; an exhausted schedule
means the loop is still running (blocked in `Accept`). -/
def acceptLoop : List AcceptEvent → Nat → AcceptTrace
  | [], d => ⟨[], 0, none, d⟩
  | .conn :: rest, _ =>
    let t := acceptLoop rest 0
    { t with handled := t.handled + 1 }
  | .tempErr :: rest, d =>
    let t := acceptLoop rest (backoffStep d)
    { t with delays := backoffStep d :: t.delays }
  | .fatalErr e :: _, d => ⟨[], 0, some e, d⟩

/-- `tempDelay` after `n` consecutive temporary failures from a reset. -/
def tempDelayAfter : Nat → Nat
  | 0 => 0
  | n + 1 => backoffStep (tempDelayAfter n)

/-! ### The relay handlers, with explicit Go `defer` semantics -/

/-- Connection-lifecycle actions of the two handlers. `closeDC` closes the
wrapped inbound plaintext connection, `closeWSC` the dialed tunnel stream,
`closeC` the accepted logical-stream connection, `closeDRC` the wrapped
outbound TCP connection; `transportBytes` is the byte-pump. -/
inductive HAct
  | closeDC | closeWSC | closeC | closeDRC | transportBytes
deriving DecidableEq

/-- A Go stack frame: actions already performed, and the LIFO `defer`
stack (head runs first at return). -/
structure GoFrame where
  performed : List HAct
  defers : List HAct
deriving DecidableEq

def act (a : HAct) (f : GoFrame) : GoFrame :=
  { f with performed := f.performed ++ [a] }

def pushDefer (a : HAct) (f : GoFrame) : GoFrame :=
  { f with defers := a :: f.defers }

/-- Function return: the deferred calls run in LIFO order. -/
def goReturn (f : GoFrame) : List HAct :=
  f.performed ++ f.defers

/-- `Relay.handleTcpOverMWSS`: wrap the inbound TCP connection, defer its
close, dial the tunnel; on dial failure return the error; otherwise defer
the stream's close and pump bytes. Returns the action list and whether an
error was returned. -/
def handleTcpOverMWSS (dialOk : Bool) : List HAct × Bool :=
  let f : GoFrame := ⟨[], []⟩
  let f := pushDefer .closeDC f
  if dialOk then
    let f := pushDefer .closeWSC f
    let f := act .transportBytes f
    (goReturn f, false)
  else
    (goReturn f, true)

/-- `Relay.handleMWSSConnToTcp`: defer closing the accepted logical-stream
connection, dial the final TCP destination; on failure log and return;
otherwise wrap it, defer its close, and pump bytes. -/
def handleMWSSConnToTcp (tcpDialOk : Bool) : List HAct :=
  let f : GoFrame := ⟨[], []⟩
  let f := pushDefer .closeC f
  if tcpDialOk then
    let f := pushDefer .closeDRC f
    let f := act .transportBytes f
    goReturn f
  else
    goReturn f

/-! ### Lock-instrumented trace of `Dial` -/

/-- The operations of `Dial`'s body, for lock-extent reasoning.
`initSessionNet` and `getConnNet` are the two network calls. -/
inductive DAct
  | lockAcquire | lockRelease | scanStep | evictStep | initSessionNet | getConnNet | persistStep
deriving DecidableEq

/-- The trace of one `Dial` call as a list of operations paired with
whether the pool mutex is held while the operation runs. The mutex is
taken on entry (`tr.sessionMutex.Lock()`) and released by `defer` only
when the function returns, so every body operation — including both
network calls — runs with the flag true. Branches mirror `dial`. -/
def dialTrace (cfg : Nat) (env : DialEnv) (st : PoolState) : List (DAct × Bool) :=
  let sessions := st.entry.getD []
  let ok0 := st.entry.isSome
  let pre := [(DAct.lockAcquire, false), (DAct.scanStep, true)]
  let core := fun (evicted ok : Bool) =>
    let pre := pre ++ (if evicted then [(DAct.evictStep, true)] else [])
    if ok then
      pre ++ [(DAct.getConnNet, true)] ++
        (if env.getConnOk then [(DAct.persistStep, true)] else []) ++
        [(DAct.lockRelease, true)]
    else
      if env.initOk then
        pre ++ [(DAct.initSessionNet, true), (DAct.getConnNet, true)] ++
          (if env.getConnOk then [(DAct.persistStep, true)] else []) ++
          [(DAct.lockRelease, true)]
      else
        pre ++ [(DAct.initSessionNet, true), (DAct.lockRelease, true)]
  match scanLoop st.store sessions 0 none ok0 with
  | (none, ok1) =>
    if ok1 then
      pre ++ [(DAct.lockRelease, true)]
    else
      core false false
  | (some (_, sid), ok1) =>
    if (getSession st.store sid).closed then
      core true false
    else
      core false ok1

/-- The session on which `Dial` invokes `session.GetConn()` for a given
environment and pre-state, if the control flow reaches that call: the
scan's selection when it found a fitting open session, otherwise the
freshly created session (`none` when `initSession` fails first, or on the
empty-entry nil dereference). -/
def dialGetConnTarget (env : DialEnv) (st : PoolState) : Option SessionId :=
  match scanOf st with
  | (none, ok1) =>
    if ok1 then none
    else if env.initOk then some st.nextId else none
  | (some (_, sid), ok1) =>
    if (getSession st.store sid).closed then
      (if env.initOk then some st.nextId else none)
    else if ok1 then some sid
    else (if env.initOk then some st.nextId else none)

theorem offer_queueCap (st : MuxState) (sid : Nat) :
    (offer st sid).queueCap = st.queueCap := by
  unfold offer; split <;> rfl

theorem offer_failedCount (st : MuxState) (sid : Nat) :
    (offer st sid).failedCount = st.failedCount := by
  unfold offer; split <;> rfl

theorem muxLoop_failedCount_le (evs : List AcceptStreamResult) :
    ∀ st : MuxState, ((muxLoop evs st).1).failedCount ≤ st.failedCount + 1 := by
  induction evs with
  | nil => intro st; unfold muxLoop; split <;> simp
  | cons e rest ih =>
    intro st
    unfold muxLoop
    split
    · cases e with
      | fail => simp
      | ok sid =>
        refine le_trans (ih (offer st sid)) ?_
        rw [offer_failedCount]
    · simp

theorem muxLoop_queueCap (evs : List AcceptStreamResult) :
    ∀ st : MuxState, ((muxLoop evs st).1).queueCap = st.queueCap := by
  induction evs with
  | nil => intro st; unfold muxLoop; split <;> rfl
  | cons e rest ih =>
    intro st
    unfold muxLoop
    split
    · cases e with
      | fail => rfl
      | ok sid => rw [ih (offer st sid), offer_queueCap]
    · rfl

theorem tempDelayAfter_succ (n : Nat) :
    tempDelayAfter (n + 1) = min (5 * 2 ^ n) 1000 := by
  induction n with
  | zero => decide
  | succ k ih =>
    show backoffStep (tempDelayAfter (k + 1)) = _
    rw [ih]
    have h2 : 0 < 2 ^ k := Nat.pos_pow_of_pos k (by decide)
    have hs : 5 * 2 ^ (k + 1) = 5 * 2 ^ k * 2 := by ring
    have hmono : 2 ^ k ≤ 2 ^ (k + 1) := Nat.pow_le_pow_right (by decide) (Nat.le_succ k)
    simp only [backoffStep]
    rcases le_or_lt (5 * 2 ^ k) 1000 with h | h
    · rw [min_eq_left h]
      split_ifs <;> first | rfl | omega
    · rw [min_eq_right (le_of_lt h)]
      have h1k : 1000 ≤ 5 * 2 ^ (k + 1) := by omega
      rw [min_eq_right h1k]
      split_ifs <;> first | rfl | omega | exact (by assumption : False).elim

theorem acceptLoop_replicate (evs : List AcceptEvent) :
    ∀ (k n : Nat),
      acceptLoop (List.replicate k .tempErr ++ evs) (tempDelayAfter n) =
        { delays := (List.range' (n + 1) k).map tempDelayAfter ++
            (acceptLoop evs (tempDelayAfter (n + k))).delays,
          handled := (acceptLoop evs (tempDelayAfter (n + k))).handled,
          result := (acceptLoop evs (tempDelayAfter (n + k))).result,
          finalDelay := (acceptLoop evs (tempDelayAfter (n + k))).finalDelay } := by
  intro k
  induction k with
  | zero => intro n; simp
  | succ k ih =>
    intro n
    rw [List.replicate_succ, List.cons_append]
    show (let t := acceptLoop (List.replicate k .tempErr ++ evs) (backoffStep (tempDelayAfter n));
      { t with delays := backoffStep (tempDelayAfter n) :: t.delays }) = _
    have hb : backoffStep (tempDelayAfter n) = tempDelayAfter (n + 1) := rfl
    rw [hb]
    rw [ih (n + 1)]
    rw [List.range'_succ]
    have hnk : n + 1 + k = n + (k + 1) := by omega
    rw [hnk]
    simp

theorem acceptLoop_delays_replicate (k : Nat) (evs : List AcceptEvent) :
    (acceptLoop (List.replicate k .tempErr ++ evs) 0).delays =
      ((List.range k).map fun j => min (5 * 2 ^ j) 1000) ++
        (acceptLoop evs (tempDelayAfter k)).delays := by
  have h := congrArg AcceptTrace.delays (acceptLoop_replicate evs k 0)
  simp only [Nat.zero_add] at h
  rw [show tempDelayAfter 0 = 0 from rfl] at h
  rw [h]
  congr 1
  rw [List.range'_eq_map_range, List.map_map]
  refine List.map_congr_left ?_
  intro j hj
  show tempDelayAfter (1 + j) = _
  rw [Nat.add_comm 1 j, tempDelayAfter_succ]

theorem scanLoop_first_fit (store : Store) :
    ∀ (l : List SessionId) (k : Nat) (last : Option (Nat × SessionId)) (b : Bool)
      (i : Nat) (sid : SessionId),
      l[i]? = some sid → fits store sid = true →
      (∀ j s, j < i → l[j]? = some s → fits store s = false) →
      scanLoop store l k last b = (some (k + i, sid), true) := by
  intro l
  induction l with
  | nil => intro k last b i sid h; simp at h
  | cons x rest ih =>
    intro k last b i sid h hf hmin
    cases i with
    | zero =>
      rw [List.getElem?_cons_zero] at h
      injection h with h
      subst h
      unfold scanLoop
      rw [if_neg (by simp [fits] at hf; omega)]
      rw [Nat.add_zero]
    | succ i =>
      have hx : fits store x = false := hmin 0 x (Nat.succ_pos i) (by simp)
      rw [List.getElem?_cons_succ] at h
      unfold scanLoop
      rw [if_pos (by simp [fits] at hx; omega)]
      rw [ih (k + 1) (some (k, x)) false i sid h hf
        (fun j s hj hjs => hmin (j + 1) s (by omega) (by simpa using hjs))]
      have : k + 1 + i = k + (i + 1) := by omega
      rw [this]

theorem scanLoop_no_fit (store : Store) :
    ∀ (l : List SessionId) (x : SessionId) (k : Nat) (last : Option (Nat × SessionId)) (b : Bool),
      (∀ s ∈ x :: l, fits store s = false) →
      scanLoop store (x :: l) k last b =
        (some (k + l.length, (x :: l).getLast (List.cons_ne_nil x l)), false) := by
  intro l
  induction l with
  | nil =>
    intro x k last b hall
    have hx : fits store x = false := hall x (by simp)
    unfold scanLoop
    rw [if_pos (by simp [fits] at hx; omega)]
    unfold scanLoop
    simp
  | cons y rest ih =>
    intro x k last b hall
    have hx : fits store x = false := hall x (by simp)
    show scanLoop store (x :: y :: rest) k last b = _
    unfold scanLoop
    rw [if_pos (by simp [fits] at hx; omega)]
    rw [ih y (k + 1) (some (k, x)) false (fun s hs => hall s (by simp at hs ⊢; tauto))]
    have h1 : k + 1 + rest.length = k + (y :: rest).length := by simp; omega
    rw [h1]
    rw [List.getLast_cons (List.cons_ne_nil y rest)]

theorem getSession_closeSession (store : Store) (sid : SessionId) :
    (getSession (closeSession store sid) sid).closed = true := by
  unfold getSession closeSession updateStore
  induction store with
  | nil => rfl
  | cons p rest ih =>
    by_cases hp : p.1 = sid
    · simp [hp, List.find?_cons]
    · simp only [List.map_cons, if_neg hp, List.find?_cons]
      have : (p.1 == sid) = false := by simpa using hp
      rw [this]
      exact ih



theorem dial_eq_core (cfg : Nat) (env : DialEnv) (st : PoolState) :
    dial cfg env st =
      match scanOf st with
      | (none, ok1) => dialCore cfg env st (entryIds st) st.entry false none ok1
      | (some (i, sid), ok1) =>
        if (getSession st.store sid).closed then
          dialCore cfg env st (removeAt (entryIds st) i)
            (some (evictedStoredView (entryIds st) i)) true (some sid) false
        else
          dialCore cfg env st (entryIds st) st.entry false (some sid) ok1 := rfl

theorem dialCore_false (cfg : Nat) (env : DialEnv) (st : PoolState)
    (sessions : List SessionId) (storedView : Option (List SessionId)) (evicted : Bool)
    (sel : Option SessionId) :
    dialCore cfg env st sessions storedView evicted sel false =
      if env.initOk then
        if env.getConnOk then
          (.conn st.nextId,
            { nextId := st.nextId + 1,
              store := bumpStreams (st.store ++ [(st.nextId, ⟨0, cfg, false⟩)]) st.nextId,
              entry := some (sessions ++ [st.nextId]) })
        else
          (.err,
            { nextId := st.nextId + 1,
              store := closeSession (st.store ++ [(st.nextId, ⟨0, cfg, false⟩)]) st.nextId,
              entry := if evicted then some (sessions ++ [st.nextId]) else storedView })
      else (.err, { st with entry := storedView }) := rfl

theorem dialCore_true_some (cfg : Nat) (env : DialEnv) (st : PoolState)
    (sessions : List SessionId) (storedView : Option (List SessionId)) (evicted : Bool)
    (sid : SessionId) :
    dialCore cfg env st sessions storedView evicted (some sid) true =
      if env.getConnOk then
        (.conn sid, { st with store := bumpStreams st.store sid, entry := some sessions })
      else
        (.err, { st with store := closeSession st.store sid, entry := storedView }) := rfl

theorem dial_err_entry (cfg : Nat) (env : DialEnv) (st : PoolState)
    (hno : dialObservesClosed st = none) :
    (dial cfg env st).1 = .err → (dial cfg env st).2.entry = st.entry := by
  have hcore : ∀ (sessions : List SessionId) (sel : Option SessionId) (ok : Bool),
      (dialCore cfg env st sessions st.entry false sel ok).1 = .err →
      (dialCore cfg env st sessions st.entry false sel ok).2.entry = st.entry := by
    intro sessions sel ok
    obtain ⟨ienv, genv⟩ := env
    cases ok <;> cases ienv <;> cases genv <;> cases sel <;> simp [dialCore]
  rw [dial_eq_core]
  unfold dialObservesClosed at hno
  rcases hscan : scanOf st with ⟨osel, ok1⟩
  rw [hscan] at hno
  rcases osel with _ | ⟨i, sid⟩
  · exact hcore (entryIds st) none ok1
  · dsimp only at hno ⊢
    by_cases hcl : (getSession st.store sid).closed
    · rw [if_pos hcl] at hno
      exact absurd hno (by simp)
    · rw [if_neg hcl]
      exact hcore (entryIds st) (some sid) ok1



theorem entryIds_eq (st2 : PoolState) (L : List SessionId) (h : st2.entry = some L) :
    entryIds st2 = L := by
  unfold entryIds; rw [h]; rfl

theorem entryIds_eq_of_entry (st2 st3 : PoolState) (h : st2.entry = st3.entry) :
    entryIds st2 = entryIds st3 := by
  unfold entryIds; rw [h]

theorem dial_select_success (cfg : Nat) (env : DialEnv) (st : PoolState)
    (i : Nat) (sid : SessionId)
    (hscan : scanOf st = (some (i, sid), true))
    (hcl : (getSession st.store sid).closed = false)
    (hg : env.getConnOk = true) :
    dial cfg env st =
      (.conn sid, { st with store := bumpStreams st.store sid, entry := some (entryIds st) }) := by
  rw [dial_eq_core, hscan]
  dsimp only
  rw [if_neg (by simp [hcl]), dialCore_true_some, if_pos hg]

theorem dial_nofit_create (cfg : Nat) (st : PoolState) (i : Nat) (sid : SessionId)
    (hscan : scanOf st = (some (i, sid), false))
    (hcl : (getSession st.store sid).closed = false) :
    dial cfg ⟨true, true⟩ st =
      (.conn st.nextId,
        { nextId := st.nextId + 1,
          store := bumpStreams (st.store ++ [(st.nextId, ⟨0, cfg, false⟩)]) st.nextId,
          entry := some (entryIds st ++ [st.nextId]) }) := by
  rw [dial_eq_core, hscan]
  dsimp only
  rw [if_neg (by simp [hcl])]
  rfl



theorem scanLoop_fst_isSome (store : Store) :
    ∀ (l : List SessionId) (x : SessionId) (k : Nat) (last : Option (Nat × SessionId)) (b : Bool),
      ((scanLoop store (x :: l) k last b).1).isSome := by
  intro l
  induction l with
  | nil =>
    intro x k last b
    unfold scanLoop
    split
    · simp [scanLoop]
    · simp
  | cons y rest ih =>
    intro x k last b
    unfold scanLoop
    split
    · exact ih y (k + 1) (some (k, x)) false
    · simp

theorem dial_getConn_fail_target (cfg : Nat) (env : DialEnv) (st : PoolState)
    (hg : env.getConnOk = false) :
    ∀ sid, dialGetConnTarget env st = some sid →
      (dial cfg env st).1 = .err ∧
      (getSession (dial cfg env st).2.store sid).closed = true := by
  obtain ⟨ienv, genv⟩ := env
  cases genv with
  | true => exact absurd hg (by simp)
  | false =>
  intro sid hsid
  rw [dial_eq_core]
  unfold dialGetConnTarget at hsid
  rcases hscan : scanOf st with ⟨osel, ok1⟩
  rw [hscan] at hsid
  rcases osel with _ | ⟨i, sidT⟩
  · dsimp only at hsid ⊢
    cases ok1 with
    | true => simp at hsid
    | false =>
      cases ienv with
      | false => simp at hsid
      | true =>
        simp at hsid
        subst hsid
        rw [dialCore_false, if_pos rfl, if_neg (by simp)]
        exact ⟨rfl, getSession_closeSession _ _⟩
  · dsimp only at hsid ⊢
    by_cases hcl : (getSession st.store sidT).closed
    · rw [if_pos hcl] at hsid ⊢
      cases ienv with
      | false => simp at hsid
      | true =>
        simp at hsid
        subst hsid
        rw [dialCore_false, if_pos rfl, if_neg (by simp)]
        exact ⟨rfl, getSession_closeSession _ _⟩
    · rw [if_neg hcl] at hsid ⊢
      cases ok1 with
      | true =>
        simp at hsid
        subst hsid
        rw [dialCore_true_some, if_neg (by simp)]
        exact ⟨rfl, getSession_closeSession _ _⟩
      | false =>
        cases ienv with
        | false => simp at hsid
        | true =>
          simp at hsid
          subst hsid
          rw [dialCore_false, if_pos rfl, if_neg (by simp)]
          exact ⟨rfl, getSession_closeSession _ _⟩

theorem dial_getConn_fail_no_evict (cfg : Nat) (env : DialEnv) (st : PoolState)
    (hg : env.getConnOk = false) (hno : dialObservesClosed st = none) :
    (dial cfg env st).2.entry = st.entry := by
  obtain ⟨ienv, genv⟩ := env
  cases genv with
  | true => exact absurd hg (by simp)
  | false =>
  have hcore : ∀ (sessions : List SessionId) (sel : Option SessionId) (ok : Bool),
      (dialCore cfg ⟨ienv, false⟩ st sessions st.entry false sel ok).2.entry = st.entry := by
    intro sessions sel ok
    cases ok <;> cases ienv <;> cases sel <;> simp [dialCore]
  rw [dial_eq_core]
  unfold dialObservesClosed at hno
  rcases hscan : scanOf st with ⟨osel, ok1⟩
  rw [hscan] at hno
  rcases osel with _ | ⟨i, sidT⟩
  · exact hcore (entryIds st) none ok1
  · dsimp only at hno ⊢
    by_cases hcl : (getSession st.store sidT).closed
    · rw [if_pos hcl] at hno
      exact absurd hno (by simp)
    · rw [if_neg hcl]
      exact hcore (entryIds st) (some sidT) ok1

theorem dial_evict_init_fail (cfg : Nat) (env : DialEnv) (st : PoolState)
    (i : Nat) (sidT : SessionId) (ok1 : Bool)
    (hscan : scanOf st = (some (i, sidT), ok1))
    (hcl : (getSession st.store sidT).closed = true)
    (hi : env.initOk = false) :
    (dial cfg env st).1 = .err ∧
    (dial cfg env st).2.entry = some (evictedStoredView (entryIds st) i) := by
  obtain ⟨ienv, genv⟩ := env
  cases ienv with
  | true => exact absurd hi (by simp)
  | false =>
  rw [dial_eq_core, hscan]
  dsimp only
  rw [if_pos hcl, dialCore_false, if_neg (by simp)]
  exact ⟨rfl, rfl⟩

theorem dial_evict_getConn_fail (cfg : Nat) (env : DialEnv) (st : PoolState)
    (i : Nat) (sidT : SessionId) (ok1 : Bool)
    (hscan : scanOf st = (some (i, sidT), ok1))
    (hcl : (getSession st.store sidT).closed = true)
    (hi : env.initOk = true) (hg : env.getConnOk = false) :
    (dial cfg env st).1 = .err ∧
    (dial cfg env st).2.entry = some (removeAt (entryIds st) i ++ [st.nextId]) := by
  obtain ⟨ienv, genv⟩ := env
  cases ienv with
  | false => exact absurd hi (by simp)
  | true =>
  cases genv with
  | true => exact absurd hg (by simp)
  | false =>
  rw [dial_eq_core, hscan]
  dsimp only
  rw [if_pos hcl, dialCore_false, if_pos rfl, if_neg (by simp)]
  exact ⟨rfl, rfl⟩

theorem dialTrace_lock_flags (cfg : Nat) (env : DialEnv) (st : PoolState) :
    ∀ p ∈ dialTrace cfg env st, p.1 ≠ DAct.lockAcquire → p.2 = true := by
  obtain ⟨ienv, genv⟩ := env
  simp only [dialTrace]
  rcases hscan : scanLoop st.store (st.entry.getD []) 0 none st.entry.isSome with ⟨osel, ok1⟩
  rcases osel with _ | ⟨i, sidT⟩
  · dsimp only
    cases ok1 <;> cases ienv <;> cases genv <;> decide
  · dsimp only
    by_cases hcl : (getSession st.store sidT).closed
    · rw [if_pos hcl]
      cases ok1 <;> cases ienv <;> cases genv <;> decide
    · rw [if_neg hcl]
      cases ok1 <;> cases ienv <;> cases genv <;> decide

theorem dialTrace_getConn_under_lock (cfg : Nat) (env : DialEnv) (st : PoolState)
    (hi : env.initOk = true) (hent : st.entry ≠ some []) :
    (DAct.getConnNet, true) ∈ dialTrace cfg env st := by
  obtain ⟨ienv, genv⟩ := env
  rw [show ienv = true from hi]
  simp only [dialTrace]
  rcases hscan : scanLoop st.store (st.entry.getD []) 0 none st.entry.isSome with ⟨osel, ok1⟩
  rcases osel with _ | ⟨i, sidT⟩
  · dsimp only
    cases ok1 with
    | true =>
      exfalso
      rcases hentry : st.entry with _ | l
      · rw [hentry] at hscan
        simp [scanLoop] at hscan
      · rcases l with _ | ⟨x, rest⟩
        · exact hent hentry
        · rw [hentry] at hscan
          simp only [Option.getD_some] at hscan
          have h2 := scanLoop_fst_isSome st.store rest x 0 none
            ((some (x :: rest) : Option (List SessionId)).isSome)
          rw [hscan] at h2
          simp at h2
    | false => cases genv <;> decide
  · dsimp only
    by_cases hcl : (getSession st.store sidT).closed
    · rw [if_pos hcl]
      cases ok1 <;> cases genv <;> decide
    · rw [if_neg hcl]
      cases ok1 <;> cases genv <;> decide

/-! ## Claim theorems -/

/-- Claim C1: the claim says the server-side mux loop keeps accepting
logical streams across transient accept failures and gives up on the
physical connection only after 5 consecutive stream-accept failures. The
code does not: `failedCount++` is immediately followed by `break`, so the
very first `AcceptStream` failure exits the loop and the deferred
`mux.Close()` runs — concretely, on the schedule `[fail, ok 1, ok 2]` the
multiplexer is closed with `failedCount = 1` and the two following streams
are never accepted; in general `failedCount` can never exceed 1, so the
`failedCount < 5` guard that encodes the 5-failure policy is unreachable
above 1. -/
theorem mux_closes_after_single_accept_failure :
    muxRun [.fail, .ok 1, .ok 2] 1024 =
      ({ failedCount := 1, queue := [], queueCap := 1024, dropped := [], muxClosed := true }, true) ∧
    (∀ (evs : List AcceptStreamResult) (cap : Nat), ((muxRun evs cap).1).failedCount ≤ 1) := by
  refine ⟨by decide, ?_⟩
  intro evs cap
  have h := muxLoop_failedCount_le evs (initMuxState cap)
  unfold muxRun
  rcases hm : muxLoop evs (initMuxState cap) with ⟨st, b⟩
  rw [hm] at h
  cases b <;> simpa using h

/-- Claim C5: when the server-side bounded accept queue is at capacity,
the non-blocking offer (`select` with `default`) closes the additional
stream (recording it dropped) instead of enqueuing it; with room it
enqueues; and each stream the mux loop accepts goes through exactly this
offer. The offer is a total function of the current state — it never
waits on the consumer. -/
theorem full_queue_drops_stream :
    (∀ (st : MuxState) (sid : Nat), ¬ st.queue.length < st.queueCap →
        offer st sid = { st with dropped := st.dropped ++ [sid] }) ∧
    (∀ (st : MuxState) (sid : Nat), st.queue.length < st.queueCap →
        offer st sid = { st with queue := st.queue ++ [sid] }) ∧
    (∀ (rest : List AcceptStreamResult) (st : MuxState) (sid : Nat), st.failedCount < 5 →
        muxLoop (.ok sid :: rest) st = muxLoop rest (offer st sid)) := by
  refine ⟨?_, ?_, ?_⟩
  · intro st sid h
    unfold offer
    rw [if_neg h]
  · intro st sid h
    unfold offer
    rw [if_pos h]
  · intro rest st sid h
    conv_lhs => rw [muxLoop]
    rw [if_pos h]

/-- Witness for `full_queue_drops_stream` at a queue of capacity 2
holding 2 streams: the offered stream 9 is dropped, not enqueued. -/
theorem full_queue_drops_stream_witness :
    offer ⟨0, [7, 8], 2, [], false⟩ 9 =
      { (⟨0, [7, 8], 2, [], false⟩ : MuxState) with dropped := [] ++ [9] } :=
  full_queue_drops_stream.1 ⟨0, [7, 8], 2, [], false⟩ 9 (by decide)

/-- Claim C9: both relay handlers close the connection they were given on
every return path: `handleTcpOverMWSS` closes the wrapped plaintext
connection (deferred right after wrapping) even when the tunnel dial
fails, and `handleMWSSConnToTcp` closes the accepted logical-stream
connection (deferred on entry) even when dialing the final TCP
destination fails; on the failure paths the close is the only connection
action performed. -/
theorem handlers_close_their_conn_on_all_paths :
    (∀ b : Bool, HAct.closeDC ∈ (handleTcpOverMWSS b).1) ∧
    (∀ b : Bool, HAct.closeC ∈ handleMWSSConnToTcp b) ∧
    handleTcpOverMWSS false = ([.closeDC], true) ∧
    handleMWSSConnToTcp false = [.closeC] := by
  refine ⟨?_, ?_, by decide, by decide⟩ <;> intro b <;> cases b <;> decide

/-- Claim C6: in the outer accept loop, a run of `k` consecutive
temporary accept errors sleeps 5ms, 10ms, 20ms, ... doubling each
consecutive failure and capped at 1000ms (= 1s); a successful accept
resets the delay to zero, so failures after it restart at 5ms (shown by
the `k`-failures, one success, `m`-failures schedule, and directly by the
`.conn` equation recursing with delay 0); a non-temporary accept error
makes the loop return that error at once. -/
theorem accept_backoff_doubles_capped_resets :
    (∀ k m : Nat,
      (acceptLoop (List.replicate k .tempErr ++ .conn :: List.replicate m .tempErr) 0).delays =
        ((List.range k).map fun j => min (5 * 2 ^ j) 1000) ++
        ((List.range m).map fun j => min (5 * 2 ^ j) 1000)) ∧
    (∀ (rest : List AcceptEvent) (d : Nat),
      acceptLoop (.conn :: rest) d =
        { acceptLoop rest 0 with handled := (acceptLoop rest 0).handled + 1 }) ∧
    (∀ (rest : List AcceptEvent) (d e : Nat),
      acceptLoop (.fatalErr e :: rest) d = ⟨[], 0, some e, d⟩) := by
  refine ⟨?_, fun rest d => rfl, fun rest d e => rfl⟩
  intro k m
  have hm := acceptLoop_delays_replicate m ([] : List AcceptEvent)
  rw [List.append_nil] at hm
  rw [acceptLoop_delays_replicate,
      show (acceptLoop (.conn :: List.replicate m .tempErr) (tempDelayAfter k)).delays
        = (acceptLoop (List.replicate m .tempErr) 0).delays from rfl,
      hm]
  simp [acceptLoop]

/-- Claim C10: `RunLocalMWSSServer` builds the server with a stream queue
(`connChan`) of capacity exactly 1024 and a listener error channel of
capacity exactly 1, and no operation of the mux producer loop ever
changes the queue capacity. -/
theorem server_channel_capacities_fixed :
    newMWSSServer.connChanCap = 1024 ∧ newMWSSServer.errChanCap = 1 ∧
    (∀ (st : MuxState) (sid : Nat), (offer st sid).queueCap = st.queueCap) ∧
    (∀ (evs : List AcceptStreamResult) (st : MuxState),
      ((muxLoop evs st).1).queueCap = st.queueCap) :=
  ⟨rfl, rfl, offer_queueCap, fun evs st => muxLoop_queueCap evs st⟩

/-- Claim C2 counterexample: on the very first `Dial` against the empty
pool (new session created, stream obtained), the `GetConn` network call
appears in the trace with the pool mutex held, and never without it — the
claim that step 6 runs outside the lock is false on the code, which
releases the mutex only via `defer` at function return. -/
theorem dial_stream_request_under_lock_cex :
    (DAct.getConnNet, true) ∈ dialTrace 2 ⟨true, true⟩ initPool ∧
    (DAct.getConnNet, false) ∉ dialTrace 2 ⟨true, true⟩ initPool := by decide

/-- Claim C2 (amended): `Dial` holds the pool-wide mutex for its entire
body — every traced operation other than the acquisition itself runs with
the lock held, including the `initSession` and `GetConn` network calls;
in particular whenever the stream request happens (a session was selected
or `initSession` succeeded), it happens under the lock. -/
theorem dial_lock_held_across_stream_request :
    ∀ (cfg : Nat) (env : DialEnv) (st : PoolState),
      (∀ p ∈ dialTrace cfg env st, p.1 ≠ DAct.lockAcquire → p.2 = true) ∧
      (env.initOk = true → st.entry ≠ some [] →
        (DAct.getConnNet, true) ∈ dialTrace cfg env st) :=
  fun cfg env st =>
    ⟨dialTrace_lock_flags cfg env st, fun hi hent => dialTrace_getConn_under_lock cfg env st hi hent⟩

/-- Witness for `dial_lock_held_across_stream_request` at the first dial
on the empty pool. -/
theorem dial_lock_held_across_stream_request_witness :
    ((DAct.getConnNet, true) : DAct × Bool).2 = true ∧
    (DAct.getConnNet, true) ∈ dialTrace 2 ⟨true, true⟩ initPool :=
  ⟨(dial_lock_held_across_stream_request 2 ⟨true, true⟩ initPool).1 (DAct.getConnNet, true)
      (by decide) (by decide),
   (dial_lock_held_across_stream_request 2 ⟨true, true⟩ initPool).2 rfl (by decide)⟩

/-- Claim C3: the scan selects the first session (in insertion order)
whose stream count is strictly below its maximum; `Dial` returns a stream
on exactly the scan-selected session when it is open; when no session
fits (and the terminal session is open) a new session is created and
appended; and the three-dials-with-max-2 scenario opens exactly two
sessions — dials 1 and 2 served by session 0, dial 3 by session 1, final
sequence `[0, 1]`. -/
theorem dial_first_fit_policy :
    (∀ (store : Store) (l : List SessionId) (b : Bool) (i : Nat) (sid : SessionId),
        l[i]? = some sid → fits store sid = true →
        (∀ j s, j < i → l[j]? = some s → fits store s = false) →
        scanLoop store l 0 none b = (some (i, sid), true)) ∧
    (∀ (cfg : Nat) (env : DialEnv) (st : PoolState) (i : Nat) (sid : SessionId),
        scanOf st = (some (i, sid), true) → (getSession st.store sid).closed = false →
        env.getConnOk = true → (dial cfg env st).1 = .conn sid) ∧
    (∀ (cfg : Nat) (st : PoolState) (x : SessionId) (l : List SessionId),
        st.entry = some (x :: l) → (∀ s ∈ x :: l, fits st.store s = false) →
        (getSession st.store ((x :: l).getLast (List.cons_ne_nil x l))).closed = false →
        (dial cfg ⟨true, true⟩ st).1 = .conn st.nextId ∧
        (dial cfg ⟨true, true⟩ st).2.entry = some (x :: l ++ [st.nextId])) ∧
    ((dial 2 ⟨true, true⟩ initPool).1 = .conn 0 ∧
      (dial 2 ⟨true, true⟩ (dial 2 ⟨true, true⟩ initPool).2).1 = .conn 0 ∧
      (dial 2 ⟨true, true⟩ (dial 2 ⟨true, true⟩ (dial 2 ⟨true, true⟩ initPool).2).2).1 = .conn 1 ∧
      (dial 2 ⟨true, true⟩ (dial 2 ⟨true, true⟩ (dial 2 ⟨true, true⟩ initPool).2).2).2.entry
        = some [0, 1]) := by
  refine ⟨?_, ?_, ?_, by decide⟩
  · intro store l b i sid h1 h2 h3
    simpa using scanLoop_first_fit store l 0 none b i sid h1 h2 h3
  · intro cfg env st i sid hscan hcl hg
    rw [dial_select_success cfg env st i sid hscan hcl hg]
  · intro cfg st x l hst hall hcl
    have hentry : entryIds st = x :: l := entryIds_eq st (x :: l) hst
    have hscan : scanOf st = (some (l.length, (x :: l).getLast (List.cons_ne_nil x l)), false) := by
      show scanLoop st.store (st.entry.getD []) 0 none st.entry.isSome = _
      rw [hst]
      simp only [Option.getD_some]
      simpa using scanLoop_no_fit st.store l x 0 none
        ((some (x :: l) : Option (List SessionId)).isSome) hall
    have heval := dial_nofit_create cfg st l.length _ hscan hcl
    refine ⟨by rw [heval], ?_⟩
    rw [heval]
    show some (entryIds st ++ [st.nextId]) = _
    rw [hentry]

/-- Witness for `dial_first_fit_policy`: with session 0 full (2 of max 2)
and session 1 below capacity (1 of 2), the scan skips session 0 and
selects session 1, and `Dial` returns a stream on session 1. -/
theorem dial_first_fit_policy_witness :
    scanLoop [(0, ⟨2, 2, false⟩), (1, ⟨1, 2, false⟩)] [0, 1] 0 none true = (some (1, 1), true) ∧
    (dial 2 ⟨true, true⟩
        (⟨2, [(0, ⟨2, 2, false⟩), (1, ⟨1, 2, false⟩)], some [0, 1]⟩ : PoolState)).1 = .conn 1 :=
  ⟨dial_first_fit_policy.1 [(0, ⟨2, 2, false⟩), (1, ⟨1, 2, false⟩)] [0, 1] true 1 1
      (by decide) (by decide)
      (fun j s hj hjs => by
        have hj0 : j = 0 := by omega
        subst hj0
        simp only [List.getElem?_cons_zero] at hjs
        injection hjs with hjs
        subst hjs
        decide),
   dial_first_fit_policy.2.1 2 ⟨true, true⟩
      ⟨2, [(0, ⟨2, 2, false⟩), (1, ⟨1, 2, false⟩)], some [0, 1]⟩ 1 1 (by decide) (by decide) rfl⟩

/-- Claim C7 counterexample: first dial on the empty pool, `initSession`
succeeds, `GetConn` fails. `Dial` closes the fresh session and returns the
error, but the pool mapping still has no entry for the destination: the
session was never recorded, because the sequence is persisted only after
a successful stream request — contradicting the claim that it "remains
recorded" per a persist that supposedly happened before the request. -/
theorem dial_fresh_session_not_recorded_cex :
    (dial 2 ⟨true, false⟩ initPool).1 = .err ∧
    (dial 2 ⟨true, false⟩ initPool).2.entry = none ∧
    (dial 2 ⟨true, false⟩ initPool).2.store = [(0, ⟨0, 2, true⟩)] := by decide

/-- Claim C7 (amended): if the stream request fails, `Dial` closes the
session it requested from and returns the error. The stored mapping
header is never reassigned on this path — the sequence is written back
only after a successful stream request, not before it as the claim's
reading of step 5 has it. When the scan evicted nothing, the stored
mapping is exactly as before: a previously recorded session remains
recorded (to be evicted lazily by a later scan that observes it closed)
and a freshly created session was never recorded. When the call did evict
the scan's terminal closed session, the in-place eviction and the fresh
session's in-place append into the freed final slot are visible through
the stored header, so the stored view becomes the evicted sequence plus
the fresh (now closed) session. -/
theorem dial_stream_failure_behavior :
    ∀ (cfg : Nat) (env : DialEnv) (st : PoolState), env.getConnOk = false →
      (∀ sid, dialGetConnTarget env st = some sid →
        (dial cfg env st).1 = .err ∧
        (getSession (dial cfg env st).2.store sid).closed = true) ∧
      (dialObservesClosed st = none →
        (dial cfg env st).2.entry = st.entry ∧
        (∀ sid, sid ∈ entryIds st → sid ∈ entryIds (dial cfg env st).2)) ∧
      (∀ i sidT ok1, scanOf st = (some (i, sidT), ok1) →
        (getSession st.store sidT).closed = true → env.initOk = true →
        (dial cfg env st).2.entry = some (removeAt (entryIds st) i ++ [st.nextId])) := by
  intro cfg env st hg
  refine ⟨dial_getConn_fail_target cfg env st hg, fun hno => ?_, ?_⟩
  · have h1 := dial_getConn_fail_no_evict cfg env st hg hno
    refine ⟨h1, fun sid hmem => ?_⟩
    rw [entryIds_eq_of_entry _ st h1]
    exact hmem
  · intro i sidT ok1 hscan hcl hi
    exact (dial_evict_getConn_fail cfg env st i sidT ok1 hscan hcl hi hg).2

/-- Witness for `dial_stream_failure_behavior` at a pool with one open
recorded session whose `GetConn` fails: the dial errors, the session is
closed, and the stored sequence is unchanged (no eviction occurred). -/
theorem dial_stream_failure_behavior_witness :
    (dial 2 ⟨true, false⟩ (⟨1, [(0, ⟨1, 2, false⟩)], some [0]⟩ : PoolState)).1 = .err ∧
    (getSession
      (dial 2 ⟨true, false⟩ (⟨1, [(0, ⟨1, 2, false⟩)], some [0]⟩ : PoolState)).2.store 0).closed
      = true ∧
    (dial 2 ⟨true, false⟩ (⟨1, [(0, ⟨1, 2, false⟩)], some [0]⟩ : PoolState)).2.entry
      = some [0] :=
  ⟨((dial_stream_failure_behavior 2 ⟨true, false⟩ ⟨1, [(0, ⟨1, 2, false⟩)], some [0]⟩ rfl).1 0
      (by decide)).1,
   ((dial_stream_failure_behavior 2 ⟨true, false⟩ ⟨1, [(0, ⟨1, 2, false⟩)], some [0]⟩ rfl).1 0
      (by decide)).2,
   ((dial_stream_failure_behavior 2 ⟨true, false⟩ ⟨1, [(0, ⟨1, 2, false⟩)], some [0]⟩ rfl).2.1
      (by decide)).1⟩

/-- Claim C8 counterexample: pool `[0, 1]` with session 0 closed but
below capacity (so the scan breaks on it) and session 1 open. A dial
whose `initSession` fails evicts session 0 in place and returns an error
without reassigning the mapping — but the in-place `append` has already
moved session 1 down inside the backing array shared with the stored
length-2 header, which now views `[1, 1]`: the stored mapping is *not*
left exactly as it was before the call. -/
theorem dial_error_mapping_changed_cex :
    (dial 2 ⟨false, true⟩
        (⟨2, [(0, ⟨0, 2, true⟩), (1, ⟨0, 2, false⟩)], some [0, 1]⟩ : PoolState)).1 = .err ∧
    (dial 2 ⟨false, true⟩
        (⟨2, [(0, ⟨0, 2, true⟩), (1, ⟨0, 2, false⟩)], some [0, 1]⟩ : PoolState)).2.entry
      = some [1, 1] ∧
    (dial 2 ⟨false, true⟩
        (⟨2, [(0, ⟨0, 2, true⟩), (1, ⟨0, 2, false⟩)], some [0, 1]⟩ : PoolState)).2.entry
      ≠ (⟨2, [(0, ⟨0, 2, true⟩), (1, ⟨0, 2, false⟩)], some [0, 1]⟩ : PoolState).entry := by
  decide

/-- Claim C8 (amended): the mapping header is reassigned only on the
success path. An error return leaves the stored mapping unchanged
whenever the call performed no eviction — in particular a fresh session
created without an eviction is never recorded. But when the scan evicted
its terminal closed session, the in-place slice delete has already
mutated the backing array shared with the stored header, so the error
return leaves the eviction visible: the stored view loses the evicted
session, and its final slot holds a duplicate of the previous last
session when `initSession` fails, or the fresh (closed) session when the
stream request fails. -/
theorem dial_error_mapping_effects :
    (∀ (cfg : Nat) (env : DialEnv) (st : PoolState),
        dialObservesClosed st = none → (dial cfg env st).1 = .err →
        (dial cfg env st).2.entry = st.entry) ∧
    (∀ (cfg : Nat) (env : DialEnv) (st : PoolState) (i : Nat) (sidT : SessionId) (ok1 : Bool),
        scanOf st = (some (i, sidT), ok1) → (getSession st.store sidT).closed = true →
        env.initOk = false →
        (dial cfg env st).1 = .err ∧
        (dial cfg env st).2.entry = some (evictedStoredView (entryIds st) i)) ∧
    (∀ (cfg : Nat) (env : DialEnv) (st : PoolState) (i : Nat) (sidT : SessionId) (ok1 : Bool),
        scanOf st = (some (i, sidT), ok1) → (getSession st.store sidT).closed = true →
        env.initOk = true → env.getConnOk = false →
        (dial cfg env st).1 = .err ∧
        (dial cfg env st).2.entry = some (removeAt (entryIds st) i ++ [st.nextId])) :=
  ⟨dial_err_entry, dial_evict_init_fail, dial_evict_getConn_fail⟩

/-- Witness for `dial_error_mapping_effects`: an eviction-free failed
dial leaves the empty mapping absent, and the eviction-then-init-failure
dial of the counterexample state exposes the in-place mutation. -/
theorem dial_error_mapping_effects_witness :
    (dial 2 ⟨false, true⟩ initPool).2.entry = none ∧
    (dial 2 ⟨false, true⟩
        (⟨2, [(0, ⟨0, 2, true⟩), (1, ⟨0, 2, false⟩)], some [0, 1]⟩ : PoolState)).2.entry
      = some (evictedStoredView [0, 1] 0) :=
  ⟨dial_error_mapping_effects.1 2 ⟨false, true⟩ initPool rfl (by decide),
   (dial_error_mapping_effects.2.1 2 ⟨false, true⟩
      ⟨2, [(0, ⟨0, 2, true⟩), (1, ⟨0, 2, false⟩)], some [0, 1]⟩ 0 0 true
      (by decide) (by decide) rfl).2⟩

end MWSS
